import Mathlib

/-!
Verification of the ISS ground-track pipeline (`src/ISS-Tracker.py`).

The core of the program is modelled shallowly:

* instants of civil UTC time are modelled by their absolute value on the
  timeline, in seconds, as a rational number (Python `datetime` objects are
  points on a timeline; `timedelta` addition is addition of seconds, and
  skyfield's `ts.utc(y, mo, d, h, mi + m, s)` evaluates the calendar fields
  linearly, so an out-of-range minute carries into hours and days exactly as
  instant arithmetic does);
* angles are rational numbers of decimal degrees;
* Python exceptions are the `Except` monad: a raised exception aborts the
  enclosing computation and discards every local intermediate result.

Functions of the program that live in third-party libraries (skyfield's TLE
parser, its `Angle.dms()` decomposition, and `wgs84.latlon_of`) are not part
of the repository's sources; they are modelled from the specification, each
such definition carrying a doc comment that starts with
`Modelled from the spec:`.
-/

set_option maxRecDepth 40000

namespace ISSTracker

/-- The closed error taxonomy of the spec (section 7): structurally invalid
TLE lines, and a propagation whose validity assumptions are violated. -/
inductive CoreError where
  | malformedElementSet (msg : String)
  | propagationDiverged (msg : String)
  deriving DecidableEq

/-- The bare Python `ValueError` raised by tuple unpacking in
`line1, line2, _ = str.split(resp.text, '\x0d\x0a')` (line 53) when the split
does not produce exactly three parts.  It is distinct from the script's own
`MyError`, which line 44 and line 50 raise only for HTTP failures. -/
inductive PullError where
  | valueError
  deriving DecidableEq

/-- Python's `str.split(text, '\x0d\x0a')` on the character sequence of the
text: split on each non-overlapping occurrence of the two-character
separator CR-LF, scanning left to right. -/
def splitCrlf : List Char → List (List Char)
  | [] => [[]]
  | '\r' :: '\n' :: rest => [] :: splitCrlf rest
  | c :: rest =>
      match splitCrlf rest with
      | [] => [[c]]
      | part :: parts => (c :: part) :: parts

/-- Lines 53-54 of `_pull_tle`, with the network already abstracted to the
response text: `line1, line2, _ = str.split(resp.text, '\x0d\x0a')` followed
by `tle = [line1, line2]`.  Unpacking into three names raises a `ValueError`
unless the split yields exactly three parts; the third part is discarded. -/
def pullTleOfText (text : String) : Except PullError (List String) :=
  match splitCrlf text.data with
  | [line1, line2, _] => Except.ok [String.mk line1, String.mk line2]
  | _ => Except.error PullError.valueError

/-- Lines 79-80: `_dms_to_dd(dms) = dms[0] + dms[1]/60 + dms[2]/3600`. -/
def dms_to_dd (dms : ℚ × ℚ × ℚ) : ℚ :=
  dms.1 + dms.2.1 / 60 + dms.2.2 / 3600

/-- Modelled from the spec: the degrees-minutes-seconds decomposition of a
decimal-degree angle produced by the Geodetic Converter (section 4.3).  In the
source this is skyfield's `Angle.dms()` (lines 71-72), which is library code
not under `src/`: it sexagesimalizes the absolute value and then distributes
the sign of the angle across all three components, the convention under which
the source's `_dms_to_dd` is an exact inverse. -/
def dmsOf (x : ℚ) : ℚ × ℚ × ℚ :=
  let sgn : ℚ := if x < 0 then -1 else 1
  let n : ℚ := |x|
  let d : ℤ := ⌊n⌋
  let m : ℤ := ⌊60 * (n - d)⌋
  let s : ℚ := 3600 * n - 3600 * (d : ℚ) - 60 * (m : ℚ)
  (sgn * (d : ℚ), sgn * (m : ℚ), sgn * s)

/-- The propagation-ready orbital state: the two validated element lines
(skyfield's `EarthSatellite`, line 61, keeps them together with the name). -/
structure OrbitalState where
  line1 : String
  line2 : String
  deriving DecidableEq

/-- Every character of the string is a decimal digit. -/
def isDigitStr (s : String) : Bool :=
  s.toList.all Char.isDigit

/-- The catalog-number columns of a TLE line (columns 3-7, zero-based 2-6). -/
def catalogField (line : String) : String :=
  (line.drop 2).take 5

/-- A TLE line is well formed when it has the standard 69 columns, starts with
its line number, and carries digits in the catalog-number columns. -/
def tleLineOk (lineno : Char) (line : String) : Bool :=
  line.length == 69 && line.front == lineno && isDigitStr (catalogField line)

/-- Modelled from the spec: `parse(line1, line2) -> OrbitalState` (section
4.1).  The source delegates parsing to skyfield's `EarthSatellite`
constructor (line 61), library code not under `src/`; this definition models
the spec's failure conditions: it fails with `MalformedElementSet` when a
line is missing (empty), truncated (shorter than the 69-column TLE format),
not numeric in the expected columns (here the catalog-number columns), or
when the two lines reference different catalog numbers. -/
def parse (line1 line2 : String) : Except CoreError OrbitalState :=
  if tleLineOk '1' line1 && tleLineOk '2' line2 &&
      catalogField line1 == catalogField line2 then
    Except.ok ⟨line1, line2⟩
  else
    Except.error (CoreError.malformedElementSet "invalid element set")

/-- One row of the `positions` frame built by `_get_sat_posn` (line 58,
lines 67 and 73-75): body name, decimal-degree latitude and longitude, and
the timestamp, modelled by its timeline value in seconds. -/
structure Position where
  name : String
  lat : ℚ
  lon : ℚ
  datetime : ℚ
  deriving DecidableEq

/-- Python's `int()` on a rational: truncation toward zero (line 63). -/
def pyInt (q : ℚ) : ℤ :=
  if 0 ≤ q then ⌊q⌋ else ⌈q⌉

/-- The minute offsets of the window: `range(-90, 90)` (line 65), in
iteration order. -/
def windowOffsets : List ℤ :=
  (List.range 180).map (fun (i : ℕ) => (i : ℤ) - 90)

/-- The instant handed to propagation for offset `m` (line 68):
`ts.utc(t[0], t[1], t[2], t[3], t[4] + minute, t[5])`.  `wholeMinute` is the
timeline value of the reference calendar minute `(t[0], ..., t[4])` and `sec`
is the seconds field `t[5]`; skyfield's julian-date arithmetic is linear in
the minute field, so an out-of-range minute carries into hours and days. -/
def propInstant (wholeMinute sec : ℚ) (m : ℤ) : ℚ :=
  wholeMinute + 60 * (m : ℚ) + sec

/-- The instant recorded in the sample's timestamp (lines 63 and 66-67):
`date + timedelta(minutes=minute)` where
`date = datetime(t[0], t[1], t[2], t[3], t[4], int(t[5]))` truncates the
seconds field. -/
def recordedInstant (wholeMinute sec : ℚ) (m : ℤ) : ℚ :=
  wholeMinute + (pyInt sec : ℚ) + 60 * (m : ℚ)

/-- Modelled from the spec: the composite of `propagate` (section 4.2) and
`to_geodetic` (section 4.3) at one instant — in the source,
`satellite.at(new_t)` followed by `wgs84.latlon_of(geocentric)` (lines
69-70), both skyfield library code not under `src/`.  An oracle maps an
orbital state and a target instant to decimal-degree `(latitude, longitude)`,
or fails with `PropagationDiverged`. -/
def GeoOracle : Type :=
  OrbitalState → ℚ → Except CoreError (ℚ × ℚ)

/-- One iteration of the loop of `_get_sat_posn` (lines 66-75): propagate to
`propInstant`, convert to geodetic, decompose into DMS and recombine with
`_dms_to_dd`, and record the row with the truncated-second timestamp. -/
def sampleAt (geo : GeoOracle) (st : OrbitalState) (wholeMinute sec : ℚ)
    (m : ℤ) : Except CoreError Position :=
  match geo st (propInstant wholeMinute sec m) with
  | Except.error e => Except.error e
  | Except.ok (lat, lon) =>
      Except.ok { name := "ISS"
                  lat := dms_to_dd (dmsOf lat)
                  lon := dms_to_dd (dmsOf lon)
                  datetime := recordedInstant wholeMinute sec m }

/-- The loop of `_get_sat_posn` as a fold in the exception monad: a raised
exception at any offset aborts the whole loop, and the rows appended so far
are locals that are never returned. -/
def buildTrack (step : ℤ → Except CoreError Position) :
    List ℤ → Except CoreError (List Position)
  | [] => Except.ok []
  | m :: rest =>
      match step m with
      | Except.error e => Except.error e
      | Except.ok p =>
          match buildTrack step rest with
          | Except.error e => Except.error e
          | Except.ok ps => Except.ok (p :: ps)

/-- `_get_sat_posn` (lines 57-77): parse the two element lines into a
satellite (line 61), then sample the window `range(-90, 90)` in order.  The
propagation-and-geodetic step is the abstract oracle `geo`. -/
def getSatPosn (geo : GeoOracle) (line1 line2 : String)
    (wholeMinute sec : ℚ) : Except CoreError (List Position) :=
  match parse line1 line2 with
  | Except.error e => Except.error e
  | Except.ok st => buildTrack (sampleAt geo st wholeMinute sec) windowOffsets

/-- Lines 112-118 of `update_graph`: the "Historical Path" layer plots
`positions[0:91]`, the rows at indices 0 through 90. -/
def historicalSegment (track : List Position) : List Position :=
  track.take 91

/-- Lines 119-124 of `update_graph`: the "Future Path" layer plots
`positions[90:180]`, the rows at indices 90 through 179. -/
def futureSegment (track : List Position) : List Position :=
  (track.drop 90).take 90

/-- Lines 125-128 of `update_graph`: the "ISS Current Position" layer plots
the single row `positions.iloc[90]`. -/
def currentPosition (track : List Position) : Option Position :=
  track[90]?

/-- A well-formed fixture for element line 1: `"1 25544"` padded to the
69-column format. -/
def demoL1 : String :=
  String.mk ('1' :: ' ' :: '2' :: '5' :: '5' :: '4' :: '4' :: List.replicate 62 ' ')

/-- A well-formed fixture for element line 2, same catalog number. -/
def demoL2 : String :=
  String.mk ('2' :: ' ' :: '2' :: '5' :: '5' :: '4' :: '4' :: List.replicate 62 ' ')

/-- A propagation oracle fixture that always places the body at (0, 0). -/
def demoGeo : GeoOracle := fun _ _ => Except.ok (0, 0)

/-- The ground track `demoGeo` produces from a reference instant with
`wholeMinute = 0` and seconds field `sec`. -/
def constTrack (sec : ℚ) : List Position :=
  windowOffsets.map
    (fun m => ⟨"ISS", dms_to_dd (dmsOf 0), dms_to_dd (dmsOf 0), recordedInstant 0 sec m⟩)

/-- The row of `constTrack sec` at offset 0. -/
def constCurrent (sec : ℚ) : Position :=
  ⟨"ISS", dms_to_dd (dmsOf 0), dms_to_dd (dmsOf 0), recordedInstant 0 sec 0⟩

/-- A propagation oracle fixture that diverges at every instant. -/
def failGeo : GeoOracle := fun _ _ =>
  Except.error (CoreError.propagationDiverged "diverged")

/-- A provider response fixture: two element lines and a trailing part,
separated by CR-LF as the source expects. -/
def demoResponse : String :=
  demoL1 ++ "\r\n" ++ demoL2 ++ "\r\nextra"

/-- Recombining the sign-distributed DMS decomposition through the source's
`_dms_to_dd` reproduces the angle exactly. -/
theorem dms_to_dd_dmsOf (x : ℚ) : dms_to_dd (dmsOf x) = x := by
  unfold dms_to_dd dmsOf
  simp only
  rcases le_or_lt 0 x with hx | hx
  · rw [if_neg (not_lt.mpr hx), abs_of_nonneg hx]
    ring
  · rw [if_pos hx, abs_of_neg hx]
    ring

theorem windowOffsets_length : windowOffsets.length = 180 := by
  simp [windowOffsets]

theorem windowOffsets_getElem (i : ℕ) (hi : i < 180) :
    windowOffsets[i]? = some ((i : ℤ) - 90) := by
  unfold windowOffsets
  rw [List.getElem?_map, List.getElem?_range hi]
  rfl

theorem mem_windowOffsets (m : ℤ) : m ∈ windowOffsets ↔ -90 ≤ m ∧ m < 90 := by
  simp only [windowOffsets, List.mem_map, List.mem_range]
  constructor
  · rintro ⟨i, hi, rfl⟩
    omega
  · intro h
    exact ⟨(m + 90).toNat, by omega, by omega⟩

theorem buildTrack_ok_length (step : ℤ → Except CoreError Position) :
    ∀ (l : List ℤ) (ps : List Position),
      buildTrack step l = Except.ok ps → ps.length = l.length := by
  intro l
  induction l with
  | nil =>
      intro ps h
      simp only [buildTrack] at h
      injection h with h
      simp [h.symm]
  | cons m rest ih =>
      intro ps h
      simp only [buildTrack] at h
      cases hs : step m with
      | error e => rw [hs] at h; cases h
      | ok p =>
          rw [hs] at h
          cases hr : buildTrack step rest with
          | error e => rw [hr] at h; cases h
          | ok qs =>
              rw [hr] at h
              injection h with h
              subst h
              simp [ih qs hr]

theorem buildTrack_ok_getElem (step : ℤ → Except CoreError Position) :
    ∀ (l : List ℤ) (ps : List Position), buildTrack step l = Except.ok ps →
      ∀ (i : ℕ) (m : ℤ), l[i]? = some m →
        ∃ p, step m = Except.ok p ∧ ps[i]? = some p := by
  intro l
  induction l with
  | nil =>
      intro ps _ i m hm
      simp at hm
  | cons a rest ih =>
      intro ps h i m hm
      simp only [buildTrack] at h
      cases hs : step a with
      | error e => rw [hs] at h; cases h
      | ok p =>
          rw [hs] at h
          cases hr : buildTrack step rest with
          | error e => rw [hr] at h; cases h
          | ok qs =>
              rw [hr] at h
              injection h with h
              subst h
              cases i with
              | zero =>
                  simp only [List.getElem?_cons_zero, Option.some.injEq] at hm
                  subst hm
                  exact ⟨p, hs, by simp⟩
              | succ j =>
                  simp only [List.getElem?_cons_succ] at hm
                  obtain ⟨q, hq, hget⟩ := ih qs hr j m hm
                  exact ⟨q, hq, by simpa using hget⟩

theorem buildTrack_ok_mem (step : ℤ → Except CoreError Position) :
    ∀ (l : List ℤ) (ps : List Position), buildTrack step l = Except.ok ps →
      ∀ p ∈ ps, ∃ m ∈ l, step m = Except.ok p := by
  intro l
  induction l with
  | nil =>
      intro ps h p hp
      simp only [buildTrack] at h
      injection h with h
      rw [h.symm] at hp
      simp at hp
  | cons a rest ih =>
      intro ps h p hp
      simp only [buildTrack] at h
      cases hs : step a with
      | error e => rw [hs] at h; cases h
      | ok q =>
          rw [hs] at h
          cases hr : buildTrack step rest with
          | error e => rw [hr] at h; cases h
          | ok qs =>
              rw [hr] at h
              injection h with h
              subst h
              rcases List.mem_cons.mp hp with hq | htail
              · exact ⟨a, List.mem_cons_self a rest, by rw [hq.symm] at hs; exact hs⟩
              · obtain ⟨m, hm, hstep⟩ := ih qs hr p htail
                exact ⟨m, List.mem_cons_of_mem a hm, hstep⟩

theorem buildTrack_error_of_mem (step : ℤ → Except CoreError Position) :
    ∀ (l : List ℤ) (m : ℤ), m ∈ l → ∀ (e : CoreError), step m = Except.error e →
      ∃ er, buildTrack step l = Except.error er := by
  intro l
  induction l with
  | nil =>
      intro m hm
      simp at hm
  | cons a rest ih =>
      intro m hm e hf
      cases hs : step a with
      | error e0 => exact ⟨e0, by simp only [buildTrack]; rw [hs]⟩
      | ok p =>
          have hmr : m ∈ rest := by
            rcases List.mem_cons.mp hm with rfl | h
            · rw [hf] at hs; cases hs
            · exact h
          obtain ⟨er, her⟩ := ih m hmr e hf
          exact ⟨er, by simp only [buildTrack]; rw [hs, her]⟩

theorem sampleAt_ok (geo : GeoOracle) (st : OrbitalState) (M s : ℚ) (m : ℤ)
    (p : Position) (h : sampleAt geo st M s m = Except.ok p) :
    p.name = "ISS" ∧ p.datetime = recordedInstant M s m ∧
      ∃ lat lon, geo st (propInstant M s m) = Except.ok (lat, lon) ∧
        p.lat = lat ∧ p.lon = lon := by
  unfold sampleAt at h
  cases hg : geo st (propInstant M s m) with
  | error e => rw [hg] at h; cases h
  | ok q =>
      obtain ⟨lat, lon⟩ := q
      rw [hg] at h
      injection h with h
      subst h
      exact ⟨rfl, rfl, lat, lon, rfl, dms_to_dd_dmsOf lat, dms_to_dd_dmsOf lon⟩

theorem getSatPosn_ok_getElem (geo : GeoOracle) (l1 l2 : String) (M s : ℚ)
    (track : List Position) (h : getSatPosn geo l1 l2 M s = Except.ok track)
    (i : ℕ) (hi : i < 180) :
    ∃ st p, parse l1 l2 = Except.ok st ∧
      sampleAt geo st M s ((i : ℤ) - 90) = Except.ok p ∧ track[i]? = some p := by
  unfold getSatPosn at h
  cases hp : parse l1 l2 with
  | error e => rw [hp] at h; cases h
  | ok st =>
      rw [hp] at h
      obtain ⟨p, hstep, hget⟩ :=
        buildTrack_ok_getElem _ _ _ h i _ (windowOffsets_getElem i hi)
      exact ⟨st, p, rfl, hstep, hget⟩

theorem getSatPosn_ok_length (geo : GeoOracle) (l1 l2 : String) (M s : ℚ)
    (track : List Position) (h : getSatPosn geo l1 l2 M s = Except.ok track) :
    track.length = 180 := by
  unfold getSatPosn at h
  cases hp : parse l1 l2 with
  | error e => rw [hp] at h; cases h
  | ok st =>
      rw [hp] at h
      rw [buildTrack_ok_length _ _ _ h, windowOffsets_length]

/-- Claim C1 fails on the code as stated: `_dms_to_dd` applied to the
sign-magnitude triple (-33, 30, 0) — negative degrees with non-negative
minute and second magnitudes — returns -32.5, not -33.5. -/
theorem dms_to_dd_sign_magnitude_neg33 :
    dms_to_dd (-33, 30, 0) = -32.5 ∧ dms_to_dd (-33, 30, 0) ≠ -33.5 := by
  constructor <;> norm_num [dms_to_dd]

/-- Claim C1 (amended): `_dms_to_dd` sums its three components as given, so
the sign of a southern/western coordinate is preserved exactly when the
minutes and seconds carry the same sign as the degrees — the convention of
the skyfield `dms()` producer that feeds it, which emits (-33, -30, 0) for
-33.5 degrees; on that sign-distributed input the result is exactly -33.5,
and any all-non-positive triple yields a non-positive result. -/
theorem dms_to_dd_sign_distributed_neg33 :
    dms_to_dd (-33, -30, 0) = -33.5 ∧ dmsOf (-33.5) = (-33, -30, 0) ∧
      ∀ d m s : ℚ, d ≤ 0 → m ≤ 0 → s ≤ 0 → dms_to_dd (d, m, s) ≤ 0 := by
  refine ⟨by norm_num [dms_to_dd], ?_, ?_⟩
  · have hneg : (-33.5 : ℚ) < 0 := by norm_num
    have habs : |(-33.5 : ℚ)| = 33.5 := by rw [abs_of_neg hneg]; norm_num
    have h1 : ⌊(33.5 : ℚ)⌋ = 33 := by rw [Int.floor_eq_iff]; norm_num
    have h2 : ⌊60 * ((33.5 : ℚ) - ((33 : ℤ) : ℚ))⌋ = 30 := by
      rw [show 60 * ((33.5 : ℚ) - ((33 : ℤ) : ℚ)) = 30 by push_cast; ring_nf]
      rw [Int.floor_eq_iff]
      norm_num
    simp only [dmsOf, hneg, if_pos, habs, h1, h2]
    norm_num
  · intro d m s hd hm hs
    unfold dms_to_dd
    simp only
    have hm' : m / 60 ≤ 0 := div_nonpos_iff.mpr (Or.inr ⟨hm, by norm_num⟩)
    have hs' : s / 3600 ≤ 0 := div_nonpos_iff.mpr (Or.inr ⟨hs, by norm_num⟩)
    linarith

/-- The witness for the amended claim C1 at the concrete triple (-33, -30, 0). -/
theorem dms_to_dd_sign_distributed_neg33_witness :
    dms_to_dd (-33, -30, 0) ≤ 0 :=
  dms_to_dd_sign_distributed_neg33.2.2 (-33) (-30) 0 (by norm_num) (by norm_num)
    (by norm_num)

/-- Claim C8: for every decimal degree value in [-90, 90] or [-180, 180],
decomposing it into the DMS triple the pipeline produces and recombining it
through `_dms_to_dd` reproduces the value within 1e-6 degrees (here:
exactly). -/
theorem dms_roundtrip_tolerance (d : ℚ) (h : -180 ≤ d ∧ d ≤ 180) :
    |dms_to_dd (dmsOf d) - d| ≤ 1 / 1000000 := by
  rw [dms_to_dd_dmsOf, sub_self, abs_zero]
  norm_num

/-- The witness for claim C8 at d = -33.5 degrees. -/
theorem dms_roundtrip_tolerance_witness :
    |dms_to_dd (dmsOf (-33.5)) - (-33.5)| ≤ 1 / 1000000 :=
  dms_roundtrip_tolerance (-33.5) ⟨by norm_num, by norm_num⟩

/-- Claim C10: TLE acquisition succeeds exactly when the response text splits
on the two-character sequence CR-LF into exactly three parts, keeping the
first two as the element lines and discarding the third; any other part count
raises the bare unpacking `ValueError`, never the script's own error type —
even for a response that carries the two element lines with bare LF
endings. -/
theorem pull_tle_crlf_only (text : String) :
    ((splitCrlf text.data).length = 3 →
      ∃ a b, pullTleOfText text = Except.ok [a, b]) ∧
    ((splitCrlf text.data).length ≠ 3 →
      pullTleOfText text = Except.error PullError.valueError) ∧
    pullTleOfText (demoL1 ++ "\n" ++ demoL2 ++ "\n") =
      Except.error PullError.valueError := by
  refine ⟨?_, ?_, by rfl⟩ <;>
    rcases hs : splitCrlf text.data with _ | ⟨a, _ | ⟨b, _ | ⟨c, _ | ⟨d, rest⟩⟩⟩⟩
  · intro h
    simp only [List.length_nil] at h
    omega
  · intro h
    simp only [List.length_cons, List.length_nil] at h
    omega
  · intro h
    simp only [List.length_cons, List.length_nil] at h
    omega
  · intro _
    refine ⟨String.mk a, String.mk b, ?_⟩
    unfold pullTleOfText
    rw [hs]
  · intro h
    simp only [List.length_cons, List.length_nil] at h
    omega
  · intro _
    unfold pullTleOfText
    rw [hs]
  · intro _
    unfold pullTleOfText
    rw [hs]
  · intro _
    unfold pullTleOfText
    rw [hs]
  · intro h
    exact absurd (by simp) h
  · intro _
    unfold pullTleOfText
    rw [hs]

/-- The witness for claim C10 on a three-part CR-LF response. -/
theorem pull_tle_crlf_only_witness :
    ∃ a b, pullTleOfText demoResponse = Except.ok [a, b] :=
  (pull_tle_crlf_only demoResponse).1 (by rfl)

/-- Claim C2: for the default window (-90, 89) with step 1 minute, a ground
track the build returns has exactly 180 positions, one per offset, and is
strictly ordered by timestamp ascending. -/
theorem track_window_complete (geo : GeoOracle) (l1 l2 : String) (M s : ℚ)
    (track : List Position) (h : getSatPosn geo l1 l2 M s = Except.ok track) :
    track.length = 180 ∧
      track.Pairwise (fun p q => p.datetime < q.datetime) := by
  have hlen := getSatPosn_ok_length geo l1 l2 M s track h
  refine ⟨hlen, ?_⟩
  rw [List.pairwise_iff_getElem]
  intro i j hi hj hij
  have hi180 : i < 180 := by omega
  have hj180 : j < 180 := by omega
  obtain ⟨sti, p, _, hsi, hgi⟩ := getSatPosn_ok_getElem geo l1 l2 M s track h i hi180
  obtain ⟨stj, q, _, hsj, hgj⟩ := getSatPosn_ok_getElem geo l1 l2 M s track h j hj180
  have hip : track[i] = p := by
    have h1 := List.getElem?_eq_getElem hi
    rw [hgi] at h1
    exact (Option.some.inj h1).symm
  have hjq : track[j] = q := by
    have h1 := List.getElem?_eq_getElem hj
    rw [hgj] at h1
    exact (Option.some.inj h1).symm
  rw [hip, hjq, (sampleAt_ok _ _ _ _ _ _ hsi).2.1, (sampleAt_ok _ _ _ _ _ _ hsj).2.1]
  unfold recordedInstant
  have hij' : (i : ℤ) - 90 < (j : ℤ) - 90 := by omega
  have hcast : (((i : ℤ) - 90 : ℤ) : ℚ) < (((j : ℤ) - 90 : ℤ) : ℚ) := by
    exact_mod_cast hij'
  linarith

/-- The witness for claim C2 on the demo oracle and element lines. -/
theorem track_window_complete_witness :
    getSatPosn demoGeo demoL1 demoL2 0 0 = Except.ok (constTrack 0) ∧
      (constTrack 0).length = 180 ∧
      (constTrack 0).Pairwise (fun p q => p.datetime < q.datetime) :=
  ⟨rfl, track_window_complete demoGeo demoL1 demoL2 0 0 (constTrack 0) rfl⟩

/-- Claim C5: parsing the element lines fails with `MalformedElementSet`
whenever a line is missing or truncated (shorter than the 69-column format),
not numeric in the expected columns, or the catalog numbers differ; the whole
build then returns that error for every propagation oracle, so no propagation
is attempted. -/
theorem malformed_parse_no_propagation (l1 l2 : String)
    (h : l1.length < 69 ∨ l2.length < 69 ∨
      isDigitStr (catalogField l1) = false ∨ isDigitStr (catalogField l2) = false ∨
      catalogField l1 ≠ catalogField l2) :
    parse l1 l2 = Except.error (CoreError.malformedElementSet "invalid element set") ∧
      ∀ (geo : GeoOracle) (M s : ℚ),
        getSatPosn geo l1 l2 M s =
          Except.error (CoreError.malformedElementSet "invalid element set") := by
  have hcond : (tleLineOk '1' l1 && tleLineOk '2' l2 &&
      (catalogField l1 == catalogField l2)) = false := by
    rcases h with h | h | h | h | h
    · have h1 : (l1.length == 69) = false := by
        simp only [beq_eq_false_iff_ne, ne_eq]
        omega
      simp [tleLineOk, h1]
    · have h1 : (l2.length == 69) = false := by
        simp only [beq_eq_false_iff_ne, ne_eq]
        omega
      simp [tleLineOk, h1]
    · simp [tleLineOk, h]
    · simp [tleLineOk, h]
    · have h1 : (catalogField l1 == catalogField l2) = false :=
        beq_eq_false_iff_ne.mpr h
      simp [h1]
  have hp : parse l1 l2 =
      Except.error (CoreError.malformedElementSet "invalid element set") := by
    unfold parse
    rw [hcond]
    rfl
  refine ⟨hp, fun geo M s => ?_⟩
  unfold getSatPosn
  rw [hp]

/-- The witness for claim C5 on two empty element lines. -/
theorem malformed_parse_no_propagation_witness :
    parse "" "" = Except.error (CoreError.malformedElementSet "invalid element set") ∧
      getSatPosn demoGeo "" "" 0 0 =
        Except.error (CoreError.malformedElementSet "invalid element set") := by
  have X := malformed_parse_no_propagation "" "" (Or.inl (by decide))
  exact ⟨X.1, X.2 demoGeo 0 0⟩

/-- Claim C6: when the parse succeeds but propagation fails at any single
offset of the window, the whole ground-track build returns an error, and no
list of positions — in particular no partial prefix — is ever returned to the
caller. -/
theorem propagation_failure_aborts_track (geo : GeoOracle) (l1 l2 : String)
    (M s : ℚ) (st : OrbitalState) (hp : parse l1 l2 = Except.ok st)
    (m : ℤ) (hm : m ∈ windowOffsets) (e : CoreError)
    (hf : geo st (propInstant M s m) = Except.error e) :
    (∃ er, getSatPosn geo l1 l2 M s = Except.error er) ∧
      ∀ ps, getSatPosn geo l1 l2 M s ≠ Except.ok ps := by
  have hstep : sampleAt geo st M s m = Except.error e := by
    unfold sampleAt
    rw [hf]
  obtain ⟨er, her⟩ :=
    buildTrack_error_of_mem (sampleAt geo st M s) windowOffsets m hm e hstep
  have hrun : getSatPosn geo l1 l2 M s = Except.error er := by
    unfold getSatPosn
    rw [hp]
    exact her
  refine ⟨⟨er, hrun⟩, fun ps hps => ?_⟩
  rw [hrun] at hps
  cases hps

/-- The witness for claim C6 on an oracle that always diverges, at offset 0. -/
theorem propagation_failure_aborts_track_witness :
    ∃ er, getSatPosn failGeo demoL1 demoL2 0 0 = Except.error er :=
  (propagation_failure_aborts_track failGeo demoL1 demoL2 0 0 ⟨demoL1, demoL2⟩ rfl
    0 ((mem_windowOffsets 0).mpr (by norm_num))
    (CoreError.propagationDiverged "diverged") rfl).1

/-- Claim C3 fails on the code as stated: the "Historical Path" layer plots
the slice [0:91] and the "Future Path" layer the slice [90:180], so the
element at offset 0 — the current position — belongs to both segments. -/
theorem segments_share_offset_zero :
    getSatPosn demoGeo demoL1 demoL2 0 0 = Except.ok (constTrack 0) ∧
      currentPosition (constTrack 0) = some (constCurrent 0) ∧
      constCurrent 0 ∈ historicalSegment (constTrack 0) ∧
      constCurrent 0 ∈ futureSegment (constTrack 0) :=
  ⟨rfl, rfl,
    List.getElem?_mem
      (show (historicalSegment (constTrack 0))[90]? = some (constCurrent 0) from rfl),
    List.getElem?_mem
      (show (futureSegment (constTrack 0))[0]? = some (constCurrent 0) from rfl)⟩

/-- Claim C3 (amended): the historical segment is the 91 samples at offsets
-90 through 0 and the future segment the 90 samples at offsets 0 through 89,
each in offset order; the single sample at offset 0 is the current position
and is shared by both segments, which otherwise cover the strictly negative
and strictly positive offsets respectively. -/
theorem segments_partition_with_overlap (geo : GeoOracle) (l1 l2 : String)
    (M s : ℚ) (track : List Position)
    (h : getSatPosn geo l1 l2 M s = Except.ok track) :
    (historicalSegment track).length = 91 ∧
      (futureSegment track).length = 90 ∧
      (∀ i : ℕ, i < 91 → ∃ p, (historicalSegment track)[i]? = some p ∧
        track[i]? = some p ∧ p.datetime = recordedInstant M s ((i : ℤ) - 90)) ∧
      (∀ i : ℕ, i < 90 → ∃ p, (futureSegment track)[i]? = some p ∧
        track[90 + i]? = some p ∧ p.datetime = recordedInstant M s (i : ℤ)) ∧
      (∃ p, currentPosition track = some p ∧ p.datetime = recordedInstant M s 0 ∧
        p ∈ historicalSegment track ∧ p ∈ futureSegment track) := by
  have hlen := getSatPosn_ok_length geo l1 l2 M s track h
  have hhl : (historicalSegment track).length = 91 := by
    simp [historicalSegment, hlen]
  have hfl : (futureSegment track).length = 90 := by
    simp [futureSegment, hlen]
  have hhist : ∀ i : ℕ, i < 91 → ∃ p, (historicalSegment track)[i]? = some p ∧
      track[i]? = some p ∧ p.datetime = recordedInstant M s ((i : ℤ) - 90) := by
    intro i hi
    obtain ⟨st, p, _, hsamp, hget⟩ :=
      getSatPosn_ok_getElem geo l1 l2 M s track h i (by omega)
    refine ⟨p, ?_, hget, (sampleAt_ok _ _ _ _ _ _ hsamp).2.1⟩
    rw [historicalSegment, List.getElem?_take_of_lt hi]
    exact hget
  have hfut : ∀ i : ℕ, i < 90 → ∃ p, (futureSegment track)[i]? = some p ∧
      track[90 + i]? = some p ∧ p.datetime = recordedInstant M s (i : ℤ) := by
    intro i hi
    obtain ⟨st, p, _, hsamp, hget⟩ :=
      getSatPosn_ok_getElem geo l1 l2 M s track h (90 + i) (by omega)
    have hcast : ((90 + i : ℕ) : ℤ) - 90 = (i : ℤ) := by omega
    rw [hcast] at hsamp
    refine ⟨p, ?_, hget, (sampleAt_ok _ _ _ _ _ _ hsamp).2.1⟩
    rw [futureSegment, List.getElem?_take_of_lt hi, List.getElem?_drop]
    exact hget
  refine ⟨hhl, hfl, hhist, hfut, ?_⟩
  obtain ⟨p, hh90, ht90, hd⟩ := hhist 90 (by omega)
  obtain ⟨q, hf0, ht90q, _⟩ := hfut 0 (by omega)
  have hpq : q = p := by
    rw [Nat.add_zero] at ht90q
    rw [ht90] at ht90q
    exact (Option.some.inj ht90q).symm
  have hd0 : p.datetime = recordedInstant M s 0 := by
    rw [hd]
    norm_num
  exact ⟨p, ht90, hd0, List.getElem?_mem hh90, List.getElem?_mem (hpq ▸ hf0)⟩

/-- The witness for the amended claim C3 on the demo track. -/
theorem segments_partition_with_overlap_witness :
    (historicalSegment (constTrack 0)).length = 91 ∧
      (futureSegment (constTrack 0)).length = 90 := by
  have X := segments_partition_with_overlap demoGeo demoL1 demoL2 0 0 (constTrack 0) rfl
  exact ⟨X.1, X.2.1⟩

/-- Claim C4 fails on the code as stated: with reference seconds field 1/2,
the sample at offset 0 is propagated at the target instant
reference + 0 minutes = 1/2, but the timestamp recorded for it is 0 — the
fractional second is dropped by `int(t[5])` when the recorded base datetime
is built. -/
theorem recorded_instant_drops_fraction :
    getSatPosn demoGeo demoL1 demoL2 0 (1/2) = Except.ok (constTrack (1/2)) ∧
      currentPosition (constTrack (1/2)) = some (constCurrent (1/2)) ∧
      propInstant 0 (1/2) 0 = (0 + 1/2) + 60 * ((0 : ℤ) : ℚ) ∧
      (constCurrent (1/2)).datetime ≠ (0 + 1/2) + 60 * ((0 : ℤ) : ℚ) := by
  refine ⟨rfl, rfl, by norm_num [propInstant], ?_⟩
  have hfloor : ⌊(1/2 : ℚ)⌋ = 0 := by
    rw [Int.floor_eq_iff]
    norm_num
  simp only [constCurrent, recordedInstant, pyInt]
  rw [if_pos (by norm_num : (0 : ℚ) ≤ 1/2), hfloor]
  norm_num

/-- Claim C4 (amended): for every offset m in the window, the propagation
target instant is reference_instant + m minutes (instant arithmetic carries
an out-of-range minute into hours and days), while the timestamp recorded for
the sample is that same instant minus the fractional part of the reference
seconds field — the propagation instant with its seconds truncated; the two
coincide exactly when the reference second is integral. -/
theorem instants_recorded_truncated (geo : GeoOracle) (l1 l2 : String)
    (M s : ℚ) (track : List Position)
    (h : getSatPosn geo l1 l2 M s = Except.ok track)
    (m : ℤ) (hm : -90 ≤ m) (hm' : m < 90) (hs : 0 ≤ s) :
    propInstant M s m = (M + s) + 60 * (m : ℚ) ∧
      ∃ p, track[(m + 90).toNat]? = some p ∧
        p.datetime = recordedInstant M s m ∧
        recordedInstant M s m = propInstant M s m - (s - ((⌊s⌋ : ℤ) : ℚ)) := by
  refine ⟨by unfold propInstant; ring, ?_⟩
  obtain ⟨st, p, _, hsamp, hget⟩ :=
    getSatPosn_ok_getElem geo l1 l2 M s track h (m + 90).toNat (by omega)
  have hidx : (((m + 90).toNat : ℕ) : ℤ) - 90 = m := by omega
  rw [hidx] at hsamp
  refine ⟨p, hget, (sampleAt_ok _ _ _ _ _ _ hsamp).2.1, ?_⟩
  unfold recordedInstant propInstant pyInt
  rw [if_pos hs]
  ring

/-- The witness for the amended claim C4 at offset 0 with integral seconds. -/
theorem instants_recorded_truncated_witness :
    propInstant 0 0 0 = (0 + 0) + 60 * ((0 : ℤ) : ℚ) ∧
      ∃ p, (constTrack 0)[((0 : ℤ) + 90).toNat]? = some p ∧
        p.datetime = recordedInstant 0 0 0 ∧
        recordedInstant 0 0 0 = propInstant 0 0 0 - (0 - ((⌊(0 : ℚ)⌋ : ℤ) : ℚ)) :=
  instants_recorded_truncated demoGeo demoL1 demoL2 0 0 (constTrack 0) rfl 0
    (by norm_num) (by norm_num) (by norm_num)

/-- Claim C7: the ground-track element at offset 0 carries a timestamp in the
same calendar minute as the reference instant — both floor to the same minute
index k, where 60k is the timeline value of the reference calendar minute and
60k + s (0 ≤ s < 60) is the reference instant itself. -/
theorem current_timestamp_reference_minute (geo : GeoOracle) (l1 l2 : String)
    (k : ℤ) (s : ℚ) (track : List Position)
    (h : getSatPosn geo l1 l2 (60 * (k : ℚ)) s = Except.ok track)
    (hs0 : 0 ≤ s) (hs60 : s < 60) :
    ∃ p, currentPosition track = some p ∧
      ⌊p.datetime / 60⌋ = k ∧ ⌊(60 * (k : ℚ) + s) / 60⌋ = k := by
  have haux : ∀ q : ℚ, 0 ≤ q → q < 60 → ⌊(60 * (k : ℚ) + q) / 60⌋ = k := by
    intro q h0 h60
    rw [show (60 * (k : ℚ) + q) / 60 = (k : ℚ) + q / 60 by ring]
    rw [Int.floor_int_add]
    have hq : ⌊q / 60⌋ = 0 := by
      rw [Int.floor_eq_iff]
      constructor
      · positivity
      · push_cast
        linarith
    rw [hq, add_zero]
  obtain ⟨st, p, _, hsamp, hget⟩ :=
    getSatPosn_ok_getElem geo l1 l2 (60 * (k : ℚ)) s track h 90 (by omega)
  refine ⟨p, hget, ?_, haux s hs0 hs60⟩
  rw [(sampleAt_ok _ _ _ _ _ _ hsamp).2.1]
  unfold recordedInstant pyInt
  rw [if_pos hs0]
  rw [show ((90 : ℕ) : ℤ) - 90 = 0 by norm_num]
  rw [show 60 * (k : ℚ) + ((⌊s⌋ : ℤ) : ℚ) + 60 * ((0 : ℤ) : ℚ) =
    60 * (k : ℚ) + ((⌊s⌋ : ℤ) : ℚ) by push_cast; ring]
  refine haux ((⌊s⌋ : ℤ) : ℚ) ?_ ?_
  · exact_mod_cast Int.floor_nonneg.mpr hs0
  · calc ((⌊s⌋ : ℤ) : ℚ) ≤ s := Int.floor_le s
    _ < 60 := hs60

/-- The witness for claim C7 on the demo track with k = 0 and s = 0. -/
theorem current_timestamp_reference_minute_witness :
    ∃ p, currentPosition (constTrack 0) = some p ∧
      ⌊p.datetime / 60⌋ = 0 ∧ ⌊(60 * ((0 : ℤ) : ℚ) + 0) / 60⌋ = 0 :=
  current_timestamp_reference_minute demoGeo demoL1 demoL2 0 0 (constTrack 0)
    (by rw [show 60 * ((0 : ℤ) : ℚ) = 0 by norm_num]; rfl) (by norm_num) (by norm_num)

/-- Claim C9: provided the geodetic conversion honours its contract of
producing latitudes in [-90, 90] and longitudes in [-180, 180], every sample
of the ground track lies in those ranges — the DMS decomposition and the
`_dms_to_dd` recombination leave the values unchanged. -/
theorem track_latlon_in_range (geo : GeoOracle) (l1 l2 : String) (M s : ℚ)
    (track : List Position)
    (hgeo : ∀ st t la lo, geo st t = Except.ok (la, lo) →
      -90 ≤ la ∧ la ≤ 90 ∧ -180 ≤ lo ∧ lo ≤ 180)
    (h : getSatPosn geo l1 l2 M s = Except.ok track) :
    ∀ p ∈ track, -90 ≤ p.lat ∧ p.lat ≤ 90 ∧ -180 ≤ p.lon ∧ p.lon ≤ 180 := by
  intro p hp
  unfold getSatPosn at h
  cases hpr : parse l1 l2 with
  | error e => rw [hpr] at h; cases h
  | ok st =>
      rw [hpr] at h
      obtain ⟨m, _, hstep⟩ := buildTrack_ok_mem _ _ _ h p hp
      obtain ⟨_, _, la, lo, hg, hla, hlo⟩ := sampleAt_ok geo st M s m p hstep
      obtain ⟨r1, r2, r3, r4⟩ := hgeo st _ la lo hg
      rw [hla, hlo]
      exact ⟨r1, r2, r3, r4⟩

/-- The witness for claim C9 on the demo oracle, at the offset-0 sample. -/
theorem track_latlon_in_range_witness :
    -90 ≤ (constCurrent 0).lat ∧ (constCurrent 0).lat ≤ 90 ∧
      -180 ≤ (constCurrent 0).lon ∧ (constCurrent 0).lon ≤ 180 :=
  track_latlon_in_range demoGeo demoL1 demoL2 0 0 (constTrack 0)
    (by
      intro st t la lo hh
      simp only [demoGeo, Except.ok.injEq, Prod.mk.injEq] at hh
      obtain ⟨h1, h2⟩ := hh
      rw [h1.symm, h2.symm]
      norm_num)
    rfl (constCurrent 0)
    (List.getElem?_mem
      (show (constTrack 0)[90]? = some (constCurrent 0) from rfl))

end ISSTracker
